import Mathlib

/-!
Verification development for the Ticket_Sorter repository.

The repository holds two near-duplicate Python programs,
`ticket_app.py` and `ticket_sorter.py`.  Each runs OCR over ticket
images or PDF pages, extracts a fixed set of named fields from the OCR
text with a static table of regular expressions (searched with
`re.IGNORECASE`, first capture group kept and stripped, sentinel "N/A"
on no match), accumulates one row per page in a background worker, and
hands the accumulated list to a spreadsheet writer.

The embedding below models OCR text as `List Char`.  The regex table
uses only three pattern shapes, which are embedded directly with
Python `re.search` (leftmost-match, greedy) semantics:

* `(\d-9,10-)`  — a run of 9 to 10 digits anywhere: `searchTicketId`;
* `LABEL\s*(.*)` — a literal label, greedy whitespace skip, capture to
  end of line: `searchLabelRest`;
* `LABEL\s*([C]+)` — a literal label, whitespace skip, then a
  non-empty run of characters of a class `C` disjoint from
  whitespace: `searchLabelClass`.

External effects (the OCR engine, the PDF rasterizer, image loading,
the Qt signal bus) are modelled as explicit parameters / event lists.
-/

/-- Python `\s` and `str.strip` whitespace, restricted to ASCII. -/
def pyIsSpace (c : Char) : Bool :=
  c = ' ' || c = '\t' || c = '\n' || c = '\u000b' || c = '\u000c' || c = '\u000d'

/-- Case-insensitive character comparison, as `re.IGNORECASE` on ASCII. -/
def charIEq (a b : Char) : Bool :=
  a.toLower = b.toLower

/-- Match the literal `lbl` case-insensitively at the head of the text;
on success return the remaining text after the label. -/
def matchLabel : List Char → List Char → Option (List Char)
  | [], t => some t
  | _ :: _, [] => none
  | l :: ls, c :: cs => if charIEq l c then matchLabel ls cs else none

/-- `re.search` of `LBL\s*(.*)` (IGNORECASE): find the leftmost
occurrence of the literal label, skip the maximal whitespace run
(`\s*` is greedy and `(.*)` never needs it to backtrack), and capture
greedily up to the end of the line.  Returns the raw capture group. -/
def searchLabelRest (lbl : List Char) : List Char → Option (List Char)
  | [] =>
    match matchLabel lbl [] with
    | some rest => some ((rest.dropWhile pyIsSpace).takeWhile (fun c => c != '\n'))
    | none => none
  | c :: cs =>
    match matchLabel lbl (c :: cs) with
    | some rest => some ((rest.dropWhile pyIsSpace).takeWhile (fun c => c != '\n'))
    | none => searchLabelRest lbl cs

/-- `re.search` of `LBL\s*([C]+)` (IGNORECASE) for a character class
`C` disjoint from whitespace: at the leftmost occurrence of the label
the greedy `\s*` eats the whitespace run and `[C]+` needs a non-empty
run right after it (backtracking `\s*` cannot help since `C` holds no
whitespace); otherwise the search resumes at the next position. -/
def searchLabelClass (lbl : List Char) (cls : Char → Bool) : List Char → Option (List Char)
  | [] => none
  | c :: cs =>
    match matchLabel lbl (c :: cs) with
    | some rest =>
      let cap := (rest.dropWhile pyIsSpace).takeWhile cls
      if cap.isEmpty then searchLabelClass lbl cls cs else some cap
    | none => searchLabelClass lbl cls cs

/-- `re.search` of `(\d-9,10-)`: the leftmost position from which at
least 9 consecutive digits start; the greedy quantifier captures at
most 10 of them. -/
def searchTicketId : List Char → Option (List Char)
  | [] => none
  | c :: cs =>
    let run := (c :: cs).takeWhile Char.isDigit
    if 9 ≤ run.length then some (run.take 10) else searchTicketId cs

/-- Python `str.strip()`: drop leading and trailing whitespace. -/
def pyStrip (l : List Char) : List Char :=
  ((l.dropWhile pyIsSpace).reverse.dropWhile pyIsSpace).reverse

/-- The character class `[\d\.]` of the `Measure` pattern. -/
def measureClass (c : Char) : Bool :=
  c.isDigit || c == '.'

/-- The character class `\d` of the `Unit_Count` pattern. -/
def digitClass (c : Char) : Bool :=
  c.isDigit

/-- The three regex shapes appearing in the pattern tables. -/
inductive FieldPattern where
  | ticketId : FieldPattern
  | labelRest (lbl : List Char) : FieldPattern
  | labelClass (lbl : List Char) (cls : Char → Bool) : FieldPattern

/-- `re.search(pattern, text, re.IGNORECASE)`, returning `group(1)`. -/
def runPattern : FieldPattern → List Char → Option (List Char)
  | .ticketId, t => searchTicketId t
  | .labelRest lbl, t => searchLabelRest lbl t
  | .labelClass lbl cls, t => searchLabelClass lbl cls t

/-- `match.group(1).strip() if match else "N/A"`. -/
def fieldValue (o : Option (List Char)) : List Char :=
  match o with
  | some g => pyStrip g
  | none => "N/A".toList

/-- An extracted ticket row: field name to extracted value, in table order. -/
abbrev Row := List (String × List Char)

namespace TicketApp

/-- The regex table of `TicketLogic.parse_fields` in `src/ticket_app.py`. -/
def patterns : List (String × FieldPattern) :=
  [("Ticket_ID", .ticketId),
   ("Date_Time", .labelRest "Ticket Date/Time:".toList),
   ("Applicant", .labelRest "Applicant:".toList),
   ("Disaster", .labelRest "Disaster:".toList),
   ("Program", .labelRest "Program:".toList),
   ("Contractor", .labelRest "Contractor:".toList),
   ("Sub-Contractor", .labelRest "Sub-Contractor:".toList),
   ("Crew", .labelRest "Crew:".toList),
   ("Supervisor", .labelRest "Supervisor:".toList),
   ("Hazard_Type", .labelRest "Hazard Type:".toList),
   ("GPS", .labelRest "GPS(Lat,Lgn):".toList),
   ("Address", .labelRest "Address:".toList),
   ("Measure", .labelClass "Measure:".toList measureClass),
   ("Unit_Count", .labelClass "Unit Count:".toList digitClass),
   ("Monitor", .labelRest "Monitor:".toList)]

/-- `TicketLogic.parse_fields` of `src/ticket_app.py`: run every
pattern over the text and collect the stripped first capture group,
or "N/A" when the pattern has no match. -/
def parse_fields (text : List Char) : Row :=
  patterns.map fun fp => (fp.1, fieldValue (runPattern fp.2 text))

end TicketApp

namespace TicketSorter

/-- The regex table of `TicketLogic.parse_fields` in `src/ticket_sorter.py`. -/
def patterns : List (String × FieldPattern) :=
  [("Ticket_ID", .ticketId),
   ("Date_Time", .labelRest "Ticket Date/Time:".toList),
   ("Applicant", .labelRest "Applicant:".toList),
   ("Disaster", .labelRest "Disaster:".toList),
   ("Program", .labelRest "Program:".toList),
   ("Contractor", .labelRest "Contractor:".toList),
   ("Sub-Contractor", .labelRest "Sub-Contractor:".toList),
   ("Crew", .labelRest "Crew:".toList),
   ("Supervisor", .labelRest "Supervisor:".toList),
   ("Hazard_Type", .labelRest "Hazard Type:".toList),
   ("GPS", .labelRest "GPS(Lat,Lgn):".toList),
   ("Address", .labelRest "Address:".toList),
   ("Measure", .labelClass "Measure:".toList measureClass),
   ("Unit_Count", .labelClass "Unit Count:".toList digitClass),
   ("Monitor", .labelRest "Monitor:".toList)]

/-- `TicketLogic.parse_fields` of `src/ticket_sorter.py`. -/
def parse_fields (text : List Char) : Row :=
  patterns.map fun fp => (fp.1, fieldValue (runPattern fp.2 text))

end TicketSorter

/-! ## File processing (`TicketLogic.process_file`)

The external engines are parameters: `convert_from_path` (pdf2image)
and `image_open` (PIL) may fail, `image_to_string` (pytesseract) is an
abstract text source per image.  Images are opaque identifiers. -/

/-- The external libraries used by `TicketLogic.process_file`. -/
structure OcrEnv where
  convert_from_path : String → Except String (List Nat)
  image_open : String → Except String Nat
  image_to_string : Nat → List Char

/-- `file_path.lower().endswith(".pdf")` from `TicketLogic.process_file`. -/
def isPdfPath (p : String) : Bool :=
  List.isSuffixOf ".pdf".toList (p.toList.map Char.toLower)

namespace TicketSorter

/-- `TicketLogic.process_file` of `src/ticket_sorter.py`: rasterize a
PDF into page images, or open the path as a single image, then OCR and
parse each image; external failures propagate. -/
def process_file (env : OcrEnv) (p : String) : Except String (List Row) :=
  if isPdfPath p then
    (env.convert_from_path p).map fun imgs =>
      imgs.map fun img => parse_fields (env.image_to_string img)
  else
    (env.image_open p).map fun img => [parse_fields (env.image_to_string img)]

end TicketSorter

namespace TicketApp

/-- `TicketLogic.process_file` of `src/ticket_app.py`: same control
flow, but the try/except wraps any failure message as "OCR Error: ...". -/
def process_file (env : OcrEnv) (p : String) : Except String (List Row) :=
  match (if isPdfPath p then
           (env.convert_from_path p).map fun imgs =>
             imgs.map fun img => parse_fields (env.image_to_string img)
         else
           (env.image_open p).map fun img => [parse_fields (env.image_to_string img)]) with
  | .ok r => .ok r
  | .error e => .error ("OCR Error: " ++ e)

end TicketApp

/-! ## The progress value: `int(((i + 1) / len(self.file_paths)) * 100)`

The source computes the progress percentage in IEEE-754 binary64
arithmetic: a correctly rounded (round-to-nearest, ties-to-even)
double division of two Python ints, a correctly rounded double
multiplication by 100, then `int` truncation toward zero.  This is
embedded exactly over `Nat`: each intermediate double is kept as an
integer mantissa together with an explicit power-of-two scale.  The
exponent range is unbounded (no overflow and no subnormals), which
agrees with binary64 whenever the intermediates are normal; for
`1 ≤ k ≤ n` the intermediates lie in `[1/n, 100]`, and CPython list
lengths are below `2^63`, so every intermediate here is normal. -/

/-- Number of binary digits of `m`, by fuel recursion (the fuel `m`
always suffices since the argument at least halves). -/
def bitsAux : Nat → Nat → Nat
  | _, 0 => 0
  | 0, _ + 1 => 0
  | fuel + 1, m + 1 => bitsAux fuel ((m + 1) / 2) + 1

/-- Number of binary digits: `2 ^ (bits m - 1) ≤ m < 2 ^ bits m` for `m ≥ 1`. -/
def bits (m : Nat) : Nat :=
  bitsAux m m

/-- Ceiling log base 2: the least `s` with `c ≤ 2 ^ s`, for `c ≥ 1`. -/
def clg2 (c : Nat) : Nat :=
  bits (c - 1)

/-- Round `a / b` to the nearest integer, ties to even — the IEEE-754
default rounding applied to an exact quotient. -/
def rneDiv (a b : Nat) : Nat :=
  if 2 * (a % b) < b then a / b
  else if b < 2 * (a % b) then a / b + 1
  else if a / b % 2 = 0 then a / b else a / b + 1

/-- The binade shift of `k / n` for `1 ≤ k ≤ n`: the least `s` with
`n ≤ k * 2 ^ s`, so that `k / n` lies in `[2 ^ (-s), 2 ^ (-s + 1))`. -/
def pyShift (k n : Nat) : Nat :=
  clg2 ((n + k - 1) / k)

/-- The 53-bit mantissa of the correctly rounded double `k / n`: the
double's exact value is `pyMant1 k n * 2 ^ (-(52 + pyShift k n))`. -/
def pyMant1 (k n : Nat) : Nat :=
  rneDiv (k * 2 ^ (52 + pyShift k n)) n

/-- The exact product of the first double with `100.0`. -/
def pyProd (k n : Nat) : Nat :=
  pyMant1 k n * 100

/-- The mantissa shift renormalizing the product to 53 bits. -/
def pyT (k n : Nat) : Nat :=
  bits (pyProd k n) - 53

/-- The 53-bit mantissa of the correctly rounded double product: its
exact value is `pyMant2 k n * 2 ^ (pyT k n - (52 + pyShift k n))`. -/
def pyMant2 (k n : Nat) : Nat :=
  rneDiv (pyProd k n) (2 ^ pyT k n)

/-- `int(((k / n) * 100))` as the program computes it in binary64
(`k` files done out of `n`): truncation of the product double.  On the
loop's domain `1 ≤ k ≤ n` the scale `52 + pyShift k n - pyT k n` is
positive, so the truncation is a floor division. -/
def pyProgress (k n : Nat) : Nat :=
  pyMant2 k n / 2 ^ (52 + pyShift k n - pyT k n)

/-! ## The worker loop (`ProcessingWorker.run`)

The worker iterates over the selected files, emitting a status line
per file, an error status when a file's processing raises, and one
progress value per file; the accumulated rows are emitted once at the
end through the finished signal.  Signal emissions are modelled as
event lists; per-file processing is an abstract
`proc : String → Except String (List Row)` (in the program,
`TicketLogic.process_file`). -/

/-- `os.path.basename` (posix): the part after the last slash. -/
def basename (p : String) : String :=
  ((p.toList.reverse.takeWhile (fun c => c != '/')).reverse).asString

/-- The f-string "Processing (i+1/n): filename". -/
def statusMsg (i n : Nat) (filename : String) : String :=
  "Processing (" ++ toString (i + 1) ++ "/" ++ toString n ++ "): " ++ filename

/-- The f-string "Error in filename: msg". -/
def errorMsg (filename msg : String) : String :=
  "Error in " ++ filename ++ ": " ++ msg

/-- The rows a file contributes to `all_results`: its extracted data
on success, nothing when its processing raised. -/
def rowsOf (r : Except String (List Row)) : List Row :=
  match r with
  | .ok l => l
  | .error _ => []

/-- The error status emitted for a file: one message when its
processing raised, none otherwise. -/
def errStatuses (filename : String) (r : Except String (List Row)) : List String :=
  match r with
  | .ok _ => []
  | .error e => [errorMsg filename e]

/-- The signal emissions of one worker run. -/
structure WorkerEvents where
  statuses : List String
  progress : List Nat
  finished : List Row

/-- The loop body of `ProcessingWorker.run` from file index `i` on:
status, optional error status, and the binary64 progress value
`int(((i + 1) / n) * 100)` (see `pyProgress`) per file. -/
def runFrom (proc : String → Except String (List Row)) (n : Nat) :
    Nat → List String → WorkerEvents
  | _, [] => ⟨[], [], []⟩
  | i, path :: rest =>
    let filename := basename path
    let tail := runFrom proc n (i + 1) rest
    ⟨statusMsg i n filename :: (errStatuses filename (proc path) ++ tail.statuses),
     pyProgress (i + 1) n :: tail.progress,
     rowsOf (proc path) ++ tail.finished⟩

/-- `ProcessingWorker.run`: loop over the files and emit the
accumulated row list through the finished signal. -/
def ProcessingWorker.run (proc : String → Except String (List Row))
    (files : List String) : WorkerEvents :=
  runFrom proc files.length 0 files

/-! ## The UI state machine (`MainWindow`)

`handle_upload` runs on a button click (Qt delivers clicks only while
the button is enabled); with a non-empty file selection it disables
the button and starts the worker.  `handle_finished` runs when the
worker's finished signal fires, and re-enables the button.  The model
is a labelled transition system over the button/worker state. -/

/-- The UI state: whether the upload button is enabled and whether a
worker is running. -/
structure UIState where
  btnEnabled : Bool
  workerRunning : Bool

/-- The initial UI state built by `MainWindow.__init__`. -/
def uiInit : UIState :=
  ⟨true, false⟩

/-- External UI events: a button click with the dialog's file
selection, or the worker's finished signal. -/
inductive UIEvent where
  | click (files : List String) : UIEvent
  | finishedSig (results : List Row) : UIEvent

/-- The transitions of the two slots.  A click is only delivered while
the button is enabled; `handle_upload` starts a worker and disables
the button exactly when the selection is non-empty.  The finished
signal only fires while a worker runs; `handle_finished` re-enables
the button. -/
inductive UIStep : UIState → UIEvent → UIState → Prop
  | clickStart (s : UIState) (files : List String)
      (hen : s.btnEnabled = true) (hne : files ≠ []) :
      UIStep s (.click files) ⟨false, true⟩
  | clickNoFiles (s : UIState) (hen : s.btnEnabled = true) :
      UIStep s (.click []) s
  | finish (s : UIState) (results : List Row) (hrun : s.workerRunning = true) :
      UIStep s (.finishedSig results) ⟨true, false⟩

/-- The states the UI can reach from start-up. -/
inductive UIReachable : UIState → Prop
  | start : UIReachable uiInit
  | step (s s' : UIState) (e : UIEvent) :
      UIReachable s → UIStep s e s' → UIReachable s'

/-- A processing function that always succeeds with no rows, used to
instantiate worker theorems. -/
def procEmpty : String → Except String (List Row) := fun _ => Except.ok []

/-- A processing function that always raises, used to instantiate the
error-handling theorem. -/
def procErr : String → Except String (List Row) := fun _ => Except.error "boom"

/-- A concrete external environment used to instantiate the
`process_file` theorems: one PDF page image (id 5), single images load
as id 7, and OCR always reads "Monitor: M". -/
def envW : OcrEnv :=
  ⟨fun _ => Except.ok [5], fun _ => Except.ok 7, fun _ => "Monitor: M".toList⟩

/-! ## Helper lemmas about stripping and class captures -/

lemma head?_dropWhile_not {α : Type} (p : α → Bool) :
    ∀ (l : List α) (c : α), (l.dropWhile p).head? = some c → p c = false := by
  intro l
  induction l with
  | nil => intro c h; simp at h
  | cons a t ih =>
    intro c h
    rw [List.dropWhile_cons] at h
    split at h
    · exact ih c h
    · rename_i ha
      injection h with h
      subst h
      exact Bool.eq_false_iff.mpr ha

lemma getLast?_dropWhile_some {α : Type} (p : α → Bool) :
    ∀ (l : List α) (c : α), (l.dropWhile p).getLast? = some c → l.getLast? = some c := by
  intro l
  induction l with
  | nil => intro c h; simp at h
  | cons a t ih =>
    intro c h
    rw [List.dropWhile_cons] at h
    split at h
    · have ht := ih c h
      cases t with
      | nil => simp at ht
      | cons b t' => rw [List.getLast?_cons_cons]; exact ht
    · exact h

lemma pyStrip_head? (l : List Char) (c : Char) (h : (pyStrip l).head? = some c) :
    pyIsSpace c = false := by
  unfold pyStrip at h
  rw [List.head?_reverse] at h
  have h2 := getLast?_dropWhile_some pyIsSpace _ c h
  rw [List.getLast?_reverse] at h2
  exact head?_dropWhile_not pyIsSpace _ c h2

lemma pyStrip_getLast? (l : List Char) (c : Char) (h : (pyStrip l).getLast? = some c) :
    pyIsSpace c = false := by
  unfold pyStrip at h
  rw [List.getLast?_reverse] at h
  exact head?_dropWhile_not pyIsSpace _ c h

lemma dropWhile_eq_self_of (p : Char → Bool) (l : List Char)
    (h : ∀ c ∈ l, p c = false) : l.dropWhile p = l := by
  cases l with
  | nil => rfl
  | cons a t =>
    exact List.dropWhile_cons_of_neg (by simp [h a (List.mem_cons_self a t)])

lemma pyStrip_eq_self (l : List Char) (h : ∀ c ∈ l, pyIsSpace c = false) :
    pyStrip l = l := by
  unfold pyStrip
  rw [dropWhile_eq_self_of pyIsSpace l h,
      dropWhile_eq_self_of pyIsSpace l.reverse (fun c hc => h c (List.mem_reverse.1 hc))]
  exact List.reverse_reverse l

lemma searchLabelClass_spec (lbl : List Char) (cls : Char → Bool) :
    ∀ t cap : List Char, searchLabelClass lbl cls t = some cap →
      cap ≠ [] ∧ ∀ c ∈ cap, cls c = true := by
  intro t
  induction t with
  | nil => intro cap h; simp [searchLabelClass] at h
  | cons a t ih =>
    intro cap h
    simp only [searchLabelClass] at h
    cases hm : matchLabel lbl (a :: t) with
    | none => simp only [hm] at h; exact ih cap h
    | some rest =>
      simp only [hm] at h
      by_cases hcap : ((rest.dropWhile pyIsSpace).takeWhile cls).isEmpty = true
      · rw [if_pos hcap] at h; exact ih cap h
      · rw [if_neg hcap] at h
        injection h with h
        subst h
        refine ⟨fun hnil => ?_, fun c hc => List.mem_takeWhile_imp hc⟩
        rw [hnil] at hcap
        simp at hcap

lemma measureClass_not_space (c : Char) (h : measureClass c = true) :
    pyIsSpace c = false := by
  cases hs : pyIsSpace c with
  | false => rfl
  | true =>
    exfalso
    simp only [pyIsSpace, Bool.or_eq_true, decide_eq_true_eq] at hs
    rcases hs with ((((h1 | h1) | h1) | h1) | h1) | h1 <;> subst h1 <;>
      simp [measureClass] at h

lemma digitClass_measureClass (c : Char) (h : digitClass c = true) :
    measureClass c = true := by
  simp only [digitClass] at h
  simp [measureClass, h]

/-! ## Claims C1, C6, C8, C10: the field-extraction table -/

/-- C1 (amended): for every input text, `TicketLogic.parse_fields`
returns a row whose key sequence is exactly the fixed 15 field names,
and each field's value is the first capture group of that field's
regex found in the text, stripped of leading and trailing whitespace,
or the sentinel "N/A" when the regex has no match. -/
theorem C1_parse_fields_row (text : List Char) :
    (TicketApp.parse_fields text).map Prod.fst =
      ["Ticket_ID", "Date_Time", "Applicant", "Disaster", "Program", "Contractor",
       "Sub-Contractor", "Crew", "Supervisor", "Hazard_Type", "GPS", "Address",
       "Measure", "Unit_Count", "Monitor"] ∧
    TicketApp.parse_fields text =
      [("Ticket_ID", fieldValue (searchTicketId text)),
       ("Date_Time", fieldValue (searchLabelRest "Ticket Date/Time:".toList text)),
       ("Applicant", fieldValue (searchLabelRest "Applicant:".toList text)),
       ("Disaster", fieldValue (searchLabelRest "Disaster:".toList text)),
       ("Program", fieldValue (searchLabelRest "Program:".toList text)),
       ("Contractor", fieldValue (searchLabelRest "Contractor:".toList text)),
       ("Sub-Contractor", fieldValue (searchLabelRest "Sub-Contractor:".toList text)),
       ("Crew", fieldValue (searchLabelRest "Crew:".toList text)),
       ("Supervisor", fieldValue (searchLabelRest "Supervisor:".toList text)),
       ("Hazard_Type", fieldValue (searchLabelRest "Hazard Type:".toList text)),
       ("GPS", fieldValue (searchLabelRest "GPS(Lat,Lgn):".toList text)),
       ("Address", fieldValue (searchLabelRest "Address:".toList text)),
       ("Measure", fieldValue (searchLabelClass "Measure:".toList measureClass text)),
       ("Unit_Count", fieldValue (searchLabelClass "Unit Count:".toList digitClass text)),
       ("Monitor", fieldValue (searchLabelRest "Monitor:".toList text))] :=
  ⟨rfl, rfl⟩

/-- C1 fails as literally stated: on the text "Applicant: Bob " the
stored Applicant value is "Bob", while the first capture group of the
Applicant regex is "Bob " (with the trailing space) — the value is
neither the raw capture group nor "N/A", because the code strips the
group before storing it. -/
theorem C1_counterexample :
    ("Applicant", "Bob".toList) ∈ TicketApp.parse_fields "Applicant: Bob ".toList ∧
    runPattern (.labelRest "Applicant:".toList) "Applicant: Bob ".toList =
      some "Bob ".toList ∧
    "Bob".toList ≠ "Bob ".toList ∧ "Bob".toList ≠ "N/A".toList :=
  ⟨by decide, by decide, by decide, by decide⟩

/-- C6: the field-extraction logic of the two source files is
equivalent — on every input text `TicketLogic.parse_fields` of
`ticket_app.py` and of `ticket_sorter.py` return equal rows. -/
theorem C6_parse_fields_equivalent :
    ∀ text : List Char, TicketApp.parse_fields text = TicketSorter.parse_fields text :=
  fun _ => rfl

/-- C8: every value in a row returned by `TicketLogic.parse_fields` is
either exactly "N/A" or has no leading or trailing whitespace (the
captured group is always stripped before being stored). -/
theorem C8_values_stripped (text : List Char) (f : String) (v : List Char)
    (hv : (f, v) ∈ TicketApp.parse_fields text) :
    v = "N/A".toList ∨
      ((∀ c, v.head? = some c → pyIsSpace c = false) ∧
       (∀ c, v.getLast? = some c → pyIsSpace c = false)) := by
  unfold TicketApp.parse_fields at hv
  rcases List.mem_map.1 hv with ⟨fp, -, heq⟩
  have hval : v = fieldValue (runPattern fp.2 text) := by
    have h2 := congrArg Prod.snd heq
    simpa using h2.symm
  cases ho : runPattern fp.2 text with
  | none => left; rw [hval, ho]; rfl
  | some g =>
    right
    rw [hval, ho]
    exact ⟨fun c hc => pyStrip_head? g c hc, fun c hc => pyStrip_getLast? g c hc⟩

/-- C8 witness at the text "Applicant: Bob ". -/
theorem C8_witness :
    ("Applicant", "Bob".toList) ∈ TicketApp.parse_fields "Applicant: Bob ".toList ∧
    ("Bob".toList = "N/A".toList ∨
      ((∀ c, ("Bob".toList).head? = some c → pyIsSpace c = false) ∧
       (∀ c, ("Bob".toList).getLast? = some c → pyIsSpace c = false))) :=
  ⟨by decide, C8_values_stripped "Applicant: Bob ".toList "Applicant" "Bob".toList (by decide)⟩

/-- C10: in every row returned by `TicketLogic.parse_fields`, the
Unit_Count value is "N/A" or a non-empty string of decimal digits, and
the Measure value is "N/A" or a non-empty string of decimal digits and
periods. -/
theorem C10_numeric_fields (text v w : List Char)
    (hu : ("Unit_Count", v) ∈ TicketApp.parse_fields text)
    (hm : ("Measure", w) ∈ TicketApp.parse_fields text) :
    (v = "N/A".toList ∨ (v ≠ [] ∧ ∀ c ∈ v, c.isDigit = true)) ∧
    (w = "N/A".toList ∨ (w ≠ [] ∧ ∀ c ∈ w, (c.isDigit || c == '.') = true)) := by
  simp only [TicketApp.parse_fields, TicketApp.patterns, List.map_cons, List.map_nil,
    List.mem_cons, List.not_mem_nil, or_false, Prod.mk.injEq, runPattern] at hu hm
  constructor
  · rcases hu with ⟨h1, h2⟩ | ⟨h1, h2⟩ | ⟨h1, h2⟩ | ⟨h1, h2⟩ | ⟨h1, h2⟩ | ⟨h1, h2⟩ |
      ⟨h1, h2⟩ | ⟨h1, h2⟩ | ⟨h1, h2⟩ | ⟨h1, h2⟩ | ⟨h1, h2⟩ | ⟨h1, h2⟩ | ⟨h1, h2⟩ |
      ⟨h1, h2⟩ | ⟨h1, h2⟩ <;>
    first
      | exact absurd h1 (by decide)
      | (subst h2
         rcases hsk : searchLabelClass "Unit Count:".toList digitClass text with _ | cap
         · left; simp [hsk, fieldValue]
         · right
           obtain ⟨hne, hall⟩ := searchLabelClass_spec _ _ _ _ hsk
           have hcap : pyStrip cap = cap :=
             pyStrip_eq_self cap fun c hc =>
               measureClass_not_space c (digitClass_measureClass c (hall c hc))
           simp only [fieldValue]
           rw [hcap]
           exact ⟨hne, fun c hc => hall c hc⟩)
  · rcases hm with ⟨h1, h2⟩ | ⟨h1, h2⟩ | ⟨h1, h2⟩ | ⟨h1, h2⟩ | ⟨h1, h2⟩ | ⟨h1, h2⟩ |
      ⟨h1, h2⟩ | ⟨h1, h2⟩ | ⟨h1, h2⟩ | ⟨h1, h2⟩ | ⟨h1, h2⟩ | ⟨h1, h2⟩ | ⟨h1, h2⟩ |
      ⟨h1, h2⟩ | ⟨h1, h2⟩ <;>
    first
      | exact absurd h1 (by decide)
      | (subst h2
         rcases hsk : searchLabelClass "Measure:".toList measureClass text with _ | cap
         · left; simp [hsk, fieldValue]
         · right
           obtain ⟨hne, hall⟩ := searchLabelClass_spec _ _ _ _ hsk
           have hcap : pyStrip cap = cap :=
             pyStrip_eq_self cap fun c hc => measureClass_not_space c (hall c hc)
           simp only [fieldValue]
           rw [hcap]
           exact ⟨hne, fun c hc => hall c hc⟩)

/-! ## Lemmas about the worker loop -/

lemma runFrom_finished (proc : String → Except String (List Row)) (n : Nat) :
    ∀ (fs : List String) (i : Nat),
      (runFrom proc n i fs).finished = (fs.map fun f => rowsOf (proc f)).flatten := by
  intro fs
  induction fs with
  | nil => intro i; rfl
  | cons a t ih => intro i; simp [runFrom, ih (i + 1)]

lemma runFrom_progress_eq (proc : String → Except String (List Row)) (n : Nat) :
    ∀ (fs : List String) (i : Nat),
      (runFrom proc n i fs).progress =
        (List.range fs.length).map fun j => pyProgress (i + j + 1) n := by
  intro fs
  induction fs with
  | nil => intro i; rfl
  | cons a t ih =>
    intro i
    show pyProgress (i + 1) n :: (runFrom proc n (i + 1) t).progress = _
    rw [ih (i + 1), List.length_cons, List.range_succ_eq_map, List.map_cons, List.map_map]
    refine congrArg₂ (· :: ·) (by rw [Nat.add_zero]) (List.map_congr_left fun j _ => ?_)
    have h3 : i + 1 + j + 1 = i + (j + 1) + 1 := by omega
    simp [Function.comp, Nat.succ_eq_add_one, h3]

lemma runFrom_progress_length (proc : String → Except String (List Row)) (n : Nat)
    (fs : List String) (i : Nat) :
    (runFrom proc n i fs).progress.length = fs.length := by
  rw [runFrom_progress_eq, List.length_map, List.length_range]

lemma errorMsg_mem_runFrom (proc : String → Except String (List Row)) (n : Nat) :
    ∀ (fs : List String) (i : Nat) (f e : String), f ∈ fs → proc f = Except.error e →
      errorMsg (basename f) e ∈ (runFrom proc n i fs).statuses := by
  intro fs
  induction fs with
  | nil => intro i f e hf _; simp at hf
  | cons a t ih =>
    intro i f e hf he
    rcases List.mem_cons.1 hf with rfl | hf'
    · refine List.mem_cons_of_mem _ (List.mem_append_left _ ?_)
      simp [errStatuses, he]
    · exact List.mem_cons_of_mem _ (List.mem_append_right _ (ih (i + 1) f e hf' he))

lemma statusMsg_mem_runFrom (proc : String → Except String (List Row)) (n : Nat) :
    ∀ (fs : List String) (i j : Nat), j < fs.length →
      statusMsg (i + j) n (basename (fs.getD j "")) ∈ (runFrom proc n i fs).statuses := by
  intro fs
  induction fs with
  | nil => intro i j hj; simp at hj
  | cons a t ih =>
    intro i j hj
    cases j with
    | zero =>
      rw [Nat.add_zero, List.getD_cons_zero]
      exact List.mem_cons_self _ _
    | succ k =>
      rw [List.getD_cons_succ, show i + (k + 1) = i + 1 + k by omega]
      exact List.mem_cons_of_mem _
        (List.mem_append_right _ (ih (i + 1) k (by simpa using hj)))

/-! ## Claims C2, C3, C5: the worker loop -/

/-- C2: when every input file's processing succeeds, the list the
worker emits through the finished signal is exactly the concatenation,
in input-file order (and page order within each file), of the row
lists produced per file, with no modification. -/
theorem C2_finished_concat (proc : String → Except String (List Row))
    (files : List String) (pageRows : List (List Row))
    (h : List.Forall₂ (fun f rows => proc f = Except.ok rows) files pageRows) :
    (ProcessingWorker.run proc files).finished = pageRows.flatten := by
  have hmap : (files.map fun f => rowsOf (proc f)) = pageRows := by
    induction h with
    | nil => rfl
    | cons hfr _ ih =>
      rw [List.map_cons, ih]
      congr 1
      rw [hfr]
      rfl
  show (runFrom proc files.length 0 files).finished = pageRows.flatten
  rw [runFrom_finished, hmap]

/-- C2 witness on the file list ["a"]. -/
theorem C2_witness :
    List.Forall₂ (fun f rows => procEmpty f = Except.ok rows) ["a"] [[]] ∧
    (ProcessingWorker.run procEmpty ["a"]).finished = List.flatten [[]] :=
  ⟨List.Forall₂.cons rfl List.Forall₂.nil,
   C2_finished_concat procEmpty ["a"] [[]] (List.Forall₂.cons rfl List.Forall₂.nil)⟩

/-- C3: when a file's processing raises, the worker emits an error
status naming that file, that file contributes no rows, every file
still gets its per-file loop iteration (one progress value and one
processing status each), and the finished list is exactly the
concatenation of the rows of the files that succeeded. -/
theorem C3_error_isolated (proc : String → Except String (List Row))
    (pre post : List String) (f e : String) (hf : proc f = Except.error e) :
    errorMsg (basename f) e ∈ (ProcessingWorker.run proc (pre ++ f :: post)).statuses ∧
    (ProcessingWorker.run proc (pre ++ f :: post)).finished =
      (pre.map fun g => rowsOf (proc g)).flatten ++
        (post.map fun g => rowsOf (proc g)).flatten ∧
    (ProcessingWorker.run proc (pre ++ f :: post)).progress.length =
      (pre ++ f :: post).length ∧
    ∀ i : Nat, i < (pre ++ f :: post).length →
      statusMsg i (pre ++ f :: post).length (basename ((pre ++ f :: post).getD i "")) ∈
        (ProcessingWorker.run proc (pre ++ f :: post)).statuses := by
  refine ⟨?_, ?_, ?_, ?_⟩
  · exact errorMsg_mem_runFrom proc _ _ 0 f e (by simp) hf
  · show (runFrom proc _ 0 (pre ++ f :: post)).finished = _
    rw [runFrom_finished]
    simp [rowsOf, hf]
  · exact runFrom_progress_length proc _ _ 0
  · intro i hi
    have h2 := statusMsg_mem_runFrom proc (pre ++ f :: post).length (pre ++ f :: post) 0 i hi
    rw [Nat.zero_add] at h2
    exact h2

/-- C3 witness: file "a" raises, file "b" follows it. -/
theorem C3_witness :
    errorMsg (basename "a") "boom" ∈
      (ProcessingWorker.run procErr ([] ++ "a" :: ["b"])).statuses ∧
    (ProcessingWorker.run procErr ([] ++ "a" :: ["b"])).finished =
      (([] : List String).map fun g => rowsOf (procErr g)).flatten ++
        (["b"].map fun g => rowsOf (procErr g)).flatten ∧
    (ProcessingWorker.run procErr ([] ++ "a" :: ["b"])).progress.length =
      ([] ++ "a" :: ["b"] : List String).length ∧
    ∀ i : Nat, i < ([] ++ "a" :: ["b"] : List String).length →
      statusMsg i ([] ++ "a" :: ["b"] : List String).length
          (basename (([] ++ "a" :: ["b"] : List String).getD i "")) ∈
        (ProcessingWorker.run procErr ([] ++ "a" :: ["b"])).statuses :=
  C3_error_isolated procErr [] ["b"] "a" "boom" rfl

/-! ## Lemmas about the binary64 progress computation -/

lemma bitsAux_spec : ∀ fuel m : Nat, m ≤ fuel → 0 < m →
    2 ^ (bitsAux fuel m - 1) ≤ m ∧ m < 2 ^ bitsAux fuel m := by
  intro fuel
  induction fuel with
  | zero => intro m hm h0; omega
  | succ f ih =>
    intro m hm h0
    match m, h0 with
    | m' + 1, _ =>
      simp only [bitsAux]
      rcases Nat.eq_zero_or_pos ((m' + 1) / 2) with hh | hh
      · have hm0 : m' = 0 := by omega
        subst hm0
        simp [bitsAux, hh]
      · have hdle : (m' + 1) / 2 ≤ f := by omega
        obtain ⟨hl, hr⟩ := ih ((m' + 1) / 2) hdle hh
        have hb1 : 1 ≤ bitsAux f ((m' + 1) / 2) := by
          by_contra hcon
          have hz : bitsAux f ((m' + 1) / 2) = 0 := by omega
          rw [hz, pow_zero] at hr
          omega
        have h2 : 2 ^ bitsAux f ((m' + 1) / 2) =
            2 * 2 ^ (bitsAux f ((m' + 1) / 2) - 1) := by
          rw [← pow_succ']
          congr 1
          omega
        have h3 : 2 ^ (bitsAux f ((m' + 1) / 2) + 1) =
            2 * 2 ^ bitsAux f ((m' + 1) / 2) := by
          rw [pow_succ]
          ring
        have h4 := Nat.div_add_mod (m' + 1) 2
        have h5 : (m' + 1) % 2 < 2 := Nat.mod_lt _ (by omega)
        constructor
        · simp only [Nat.add_sub_cancel]
          omega
        · omega

lemma bits_spec (m : Nat) (h0 : 0 < m) :
    2 ^ (bits m - 1) ≤ m ∧ m < 2 ^ bits m :=
  bitsAux_spec m m le_rfl h0

lemma le_pow_clg2 (c : Nat) (h : 0 < c) : c ≤ 2 ^ clg2 c := by
  unfold clg2
  rcases Nat.eq_zero_or_pos (c - 1) with h1 | h1
  · have hc1 : c = 1 := by omega
    subst hc1
    simp [bits, bitsAux]
  · obtain ⟨-, hr⟩ := bits_spec (c - 1) h1
    omega

lemma clg2_le_of_le_pow (c s : Nat) (h : 0 < c) (hs : c ≤ 2 ^ s) : clg2 c ≤ s := by
  unfold clg2
  rcases Nat.eq_zero_or_pos (c - 1) with h1 | h1
  · simp [show c - 1 = 0 from h1, bits, bitsAux]
  · obtain ⟨hl, -⟩ := bits_spec (c - 1) h1
    by_contra hcon
    push_neg at hcon
    have hpow : 2 ^ s ≤ 2 ^ (bits (c - 1) - 1) :=
      Nat.pow_le_pow_right (by omega) (by omega)
    omega

lemma rneDiv_lb (a b : Nat) : a / b ≤ rneDiv a b := by
  unfold rneDiv
  split_ifs <;> omega

lemma rneDiv_ub (a b : Nat) : rneDiv a b ≤ a / b + 1 := by
  unfold rneDiv
  split_ifs <;> omega

lemma rneDiv_exact (a b : Nat) (hb : 0 < b) (hd : b ∣ a) : rneDiv a b = a / b := by
  unfold rneDiv
  have h0 : a % b = 0 := Nat.mod_eq_zero_of_dvd hd
  rw [h0]
  simp [hb]

lemma rneDiv_mono (a b a' b' : Nat) (hb : 0 < b) (hb' : 0 < b')
    (h : a * b' ≤ a' * b) : rneDiv a b ≤ rneDiv a' b' := by
  have hq : a / b ≤ a' / b' := by
    rw [Nat.le_div_iff_mul_le hb']
    have h1 : a / b * b ≤ a := Nat.div_mul_le_self a b
    have h2 : a / b * b' * b ≤ a' * b := by
      calc a / b * b' * b = a / b * b * b' := by ring
        _ ≤ a * b' := Nat.mul_le_mul_right _ h1
        _ ≤ a' * b := h
    exact Nat.le_of_mul_le_mul_right h2 hb
  rcases Nat.lt_or_ge (a / b) (a' / b') with hlt | hge
  · have h1 := rneDiv_ub a b
    have h2 := rneDiv_lb a' b'
    omega
  · have heq : a / b = a' / b' := le_antisymm hq hge
    have hr : a % b * b' ≤ a' % b' * b := by
      have e1 := Nat.div_add_mod a b
      have e2 := Nat.div_add_mod a' b'
      have e3 : (b * (a / b) + a % b) * b' ≤ (b' * (a' / b') + a' % b') * b := by
        rw [e1, e2]; exact h
      rw [← heq] at e3
      nlinarith [e3]
    have hrb : a % b < b := Nat.mod_lt _ hb
    have hrb' : a' % b' < b' := Nat.mod_lt _ hb'
    unfold rneDiv
    rw [heq]
    split_ifs <;> first
      | omega
      | (exfalso; nlinarith [hr, hrb, hrb', hb, hb'])

lemma ceil_div_ge (k n : Nat) (hk : 0 < k) (hn : 0 < n) :
    n ≤ k * ((n + k - 1) / k) := by
  have e := Nat.div_add_mod (n + k - 1) k
  have hm : (n + k - 1) % k < k := Nat.mod_lt _ hk
  set c := (n + k - 1) / k with hc
  set r := (n + k - 1) % k with hrr
  generalize hkc : k * c = kc at e ⊢
  omega

lemma ceil_div_le (k n : Nat) : k * ((n + k - 1) / k) ≤ n + k - 1 := by
  rw [Nat.mul_comm]
  exact Nat.div_mul_le_self _ _

lemma ceil_div_pos (k n : Nat) (hk : 0 < k) (hn : 0 < n) :
    0 < (n + k - 1) / k :=
  Nat.div_pos (by omega) hk

lemma pyShift_lower (k n : Nat) (hk : 0 < k) (hn : 0 < n) :
    n ≤ k * 2 ^ pyShift k n := by
  have h1 := le_pow_clg2 _ (ceil_div_pos k n hk hn)
  have h2 := ceil_div_ge k n hk hn
  calc n ≤ k * ((n + k - 1) / k) := h2
    _ ≤ k * 2 ^ clg2 ((n + k - 1) / k) := Nat.mul_le_mul_left _ h1
    _ = k * 2 ^ pyShift k n := rfl

lemma pyShift_strict (k n : Nat) (hk : 0 < k) (hkn : k ≤ n) :
    k * 2 ^ pyShift k n < 2 * n := by
  have hn : 0 < n := lt_of_lt_of_le hk hkn
  rcases Nat.eq_zero_or_pos (pyShift k n) with hs | hs
  · rw [hs, pow_zero]
    omega
  · have hlt : k * 2 ^ (pyShift k n - 1) < n := by
      by_contra hcon
      push_neg at hcon
      have hcle : (n + k - 1) / k ≤ 2 ^ (pyShift k n - 1) := by
        have h1 := ceil_div_le k n
        have h2 : k * ((n + k - 1) / k) < k * (2 ^ (pyShift k n - 1) + 1) := by
          have : k * (2 ^ (pyShift k n - 1) + 1) = k * 2 ^ (pyShift k n - 1) + k := by ring
          omega
        have := Nat.lt_of_mul_lt_mul_left h2
        omega
      have := clg2_le_of_le_pow _ _ (ceil_div_pos k n hk hn) hcle
      have : pyShift k n ≤ pyShift k n - 1 := this
      omega
    have hpow : 2 ^ pyShift k n = 2 * 2 ^ (pyShift k n - 1) := by
      rw [← pow_succ']
      congr 1
      omega
    calc k * 2 ^ pyShift k n = 2 * (k * 2 ^ (pyShift k n - 1)) := by rw [hpow]; ring
      _ < 2 * n := by omega

lemma pyShift_anti (k k' n : Nat) (hk : 0 < k) (hkk : k ≤ k') (hn : 0 < n) :
    pyShift k' n ≤ pyShift k n := by
  have hk' : 0 < k' := lt_of_lt_of_le hk hkk
  refine clg2_le_of_le_pow _ _ (ceil_div_pos k' n hk' hn) ?_
  by_contra hcon
  push_neg at hcon
  have h1 : k' * (2 ^ pyShift k n + 1) ≤ k' * ((n + k' - 1) / k') :=
    Nat.mul_le_mul_left _ (by omega)
  have h2 := ceil_div_le k' n
  have h3 : n ≤ k * 2 ^ pyShift k n := pyShift_lower k n hk hn
  have h4 : k * 2 ^ pyShift k n ≤ k' * 2 ^ pyShift k n :=
    Nat.mul_le_mul_right _ hkk
  have h5 : k' * (2 ^ pyShift k n + 1) = k' * 2 ^ pyShift k n + k' := by ring
  omega

lemma pyMant1_lb (k n : Nat) (hk : 0 < k) (hn : 0 < n) :
    2 ^ 52 ≤ pyMant1 k n := by
  have h1 : 2 ^ 52 * n ≤ k * 2 ^ (52 + pyShift k n) := by
    calc 2 ^ 52 * n ≤ 2 ^ 52 * (k * 2 ^ pyShift k n) :=
          Nat.mul_le_mul_left _ (pyShift_lower k n hk hn)
      _ = k * 2 ^ (52 + pyShift k n) := by rw [pow_add]; ring
  have h2 : 2 ^ 52 ≤ k * 2 ^ (52 + pyShift k n) / n :=
    (Nat.le_div_iff_mul_le hn).mpr h1
  exact le_trans h2 (rneDiv_lb _ _)

lemma pyMant1_ub (k n : Nat) (hk : 0 < k) (hkn : k ≤ n) :
    pyMant1 k n ≤ 2 ^ 53 := by
  have hn : 0 < n := lt_of_lt_of_le hk hkn
  have h1 : k * 2 ^ (52 + pyShift k n) < 2 ^ 53 * n := by
    calc k * 2 ^ (52 + pyShift k n) = k * 2 ^ pyShift k n * 2 ^ 52 := by
          rw [pow_add]; ring
      _ < 2 * n * 2 ^ 52 := by
          have h0 := pyShift_strict k n hk hkn
          exact (Nat.mul_lt_mul_right (show 0 < 2 ^ 52 by positivity)).mpr h0
      _ = 2 ^ 53 * n := by ring
  have h2 : k * 2 ^ (52 + pyShift k n) / n < 2 ^ 53 :=
    (Nat.div_lt_iff_lt_mul hn).mpr (by omega)
  have h3 := rneDiv_ub (k * 2 ^ (52 + pyShift k n)) n
  unfold pyMant1
  omega

lemma pyT_spec (k n : Nat) (hk : 0 < k) (hkn : k ≤ n) :
    bits (pyProd k n) = pyT k n + 53 ∧ 6 ≤ pyT k n ∧ pyT k n ≤ 7 := by
  have hn : 0 < n := lt_of_lt_of_le hk hkn
  have hlb : 2 ^ 58 ≤ pyProd k n := by
    have := pyMant1_lb k n hk hn
    calc (2 ^ 58 : Nat) ≤ 2 ^ 52 * 100 := by norm_num
      _ ≤ pyMant1 k n * 100 := Nat.mul_le_mul_right _ this
      _ = pyProd k n := rfl
  have hub : pyProd k n < 2 ^ 60 := by
    have := pyMant1_ub k n hk hkn
    calc pyProd k n = pyMant1 k n * 100 := rfl
      _ ≤ 2 ^ 53 * 100 := Nat.mul_le_mul_right _ this
      _ < 2 ^ 60 := by norm_num
  have hp0 : 0 < pyProd k n := lt_of_lt_of_le (by positivity) hlb
  obtain ⟨hl, hr⟩ := bits_spec _ hp0
  have hb59 : 59 ≤ bits (pyProd k n) := by
    by_contra hcon
    push_neg at hcon
    have : (2 : Nat) ^ bits (pyProd k n) ≤ 2 ^ 58 :=
      Nat.pow_le_pow_right (by omega) (by omega)
    omega
  have hb60 : bits (pyProd k n) ≤ 60 := by
    by_contra hcon
    push_neg at hcon
    have : (2 : Nat) ^ 60 ≤ 2 ^ (bits (pyProd k n) - 1) :=
      Nat.pow_le_pow_right (by omega) (by omega)
    omega
  unfold pyT
  omega

lemma pyMant2_lb (k n : Nat) (hk : 0 < k) (hkn : k ≤ n) :
    2 ^ 52 ≤ pyMant2 k n := by
  obtain ⟨hb, ht6, -⟩ := pyT_spec k n hk hkn
  have hp0 : 0 < pyProd k n := by
    have := pyMant1_lb k n hk (lt_of_lt_of_le hk hkn)
    have : 0 < pyMant1 k n := lt_of_lt_of_le (by positivity) this
    unfold pyProd
    positivity
  obtain ⟨hl, -⟩ := bits_spec _ hp0
  have h1 : 2 ^ 52 * 2 ^ pyT k n ≤ pyProd k n := by
    rw [← pow_add]
    have : 52 + pyT k n = bits (pyProd k n) - 1 := by omega
    rw [this]
    exact hl
  have h2 : 2 ^ 52 ≤ pyProd k n / 2 ^ pyT k n :=
    (Nat.le_div_iff_mul_le (by positivity)).mpr h1
  exact le_trans h2 (rneDiv_lb _ _)

lemma pyMant2_ub (k n : Nat) (hk : 0 < k) (hkn : k ≤ n) :
    pyMant2 k n ≤ 2 ^ 53 := by
  obtain ⟨hb, -, -⟩ := pyT_spec k n hk hkn
  have hp0 : 0 < pyProd k n := by
    have h0 := pyMant1_lb k n hk (lt_of_lt_of_le hk hkn)
    have : 0 < pyMant1 k n := lt_of_lt_of_le (by positivity) h0
    unfold pyProd
    positivity
  obtain ⟨-, hr⟩ := bits_spec _ hp0
  have h1 : pyProd k n < 2 ^ 53 * 2 ^ pyT k n := by
    rw [← pow_add]
    have he : 53 + pyT k n = bits (pyProd k n) := by omega
    rw [he]
    exact hr
  have h2 : pyProd k n / 2 ^ pyT k n < 2 ^ 53 :=
    (Nat.div_lt_iff_lt_mul (by positivity)).mpr (by omega)
  have h3 := rneDiv_ub (pyProd k n) (2 ^ pyT k n)
  unfold pyMant2
  omega

lemma two_zpow_pos (e : ℤ) : (0:ℚ) < (2:ℚ) ^ e := by
  positivity

lemma two_zpow_mul (e f : ℤ) : (2:ℚ) ^ e * (2:ℚ) ^ f = (2:ℚ) ^ (e + f) :=
  (zpow_add₀ (by norm_num) e f).symm

lemma natCast_mul_zpow_le (m c : ℕ) (e : ℤ) (h : m ≤ 2 ^ c) :
    (m : ℚ) * (2:ℚ) ^ e ≤ (2:ℚ) ^ ((c : ℤ) + e) := by
  have h1 : (m : ℚ) ≤ (2:ℚ) ^ (c : ℤ) := by
    rw [zpow_natCast]
    exact_mod_cast h
  rw [← two_zpow_mul]
  exact mul_le_mul_of_nonneg_right h1 (le_of_lt (two_zpow_pos e))

lemma natCast_mul_zpow_lt (m c : ℕ) (e : ℤ) (h : m < 2 ^ c) :
    (m : ℚ) * (2:ℚ) ^ e < (2:ℚ) ^ ((c : ℤ) + e) := by
  have h1 : (m : ℚ) < (2:ℚ) ^ (c : ℤ) := by
    rw [zpow_natCast]
    exact_mod_cast h
  rw [← two_zpow_mul]
  exact mul_lt_mul_of_pos_right h1 (two_zpow_pos e)

lemma zpow_le_natCast_mul (m c : ℕ) (e : ℤ) (h : 2 ^ c ≤ m) :
    (2:ℚ) ^ ((c : ℤ) + e) ≤ (m : ℚ) * (2:ℚ) ^ e := by
  have h1 : (2:ℚ) ^ (c : ℤ) ≤ (m : ℚ) := by
    rw [zpow_natCast]
    exact_mod_cast h
  rw [← two_zpow_mul]
  exact mul_le_mul_of_nonneg_right h1 (le_of_lt (two_zpow_pos e))

lemma pyVal1_mono (k k' n : Nat) (hk : 0 < k) (hkk : k ≤ k') (hk'n : k' ≤ n) :
    (pyMant1 k n : ℚ) * (2:ℚ) ^ (-(52 + (pyShift k n : ℤ))) ≤
      (pyMant1 k' n : ℚ) * (2:ℚ) ^ (-(52 + (pyShift k' n : ℤ))) := by
  have hk' : 0 < k' := lt_of_lt_of_le hk hkk
  have hn : 0 < n := lt_of_lt_of_le hk' hk'n
  have hkn : k ≤ n := le_trans hkk hk'n
  have hss : pyShift k' n ≤ pyShift k n := pyShift_anti k k' n hk hkk hn
  rcases eq_or_lt_of_le hss with hse | hslt
  · rw [hse]
    have hm : pyMant1 k n ≤ pyMant1 k' n := by
      unfold pyMant1
      rw [hse]
      exact rneDiv_mono _ n _ n hn hn
        (Nat.mul_le_mul_right _ (Nat.mul_le_mul_right _ hkk))
    exact mul_le_mul_of_nonneg_right (by exact_mod_cast hm)
      (le_of_lt (two_zpow_pos _))
  · calc (pyMant1 k n : ℚ) * (2:ℚ) ^ (-(52 + (pyShift k n : ℤ)))
        ≤ (2:ℚ) ^ (((53 : ℕ) : ℤ) + -(52 + (pyShift k n : ℤ))) :=
          natCast_mul_zpow_le _ 53 _ (pyMant1_ub k n hk hkn)
      _ ≤ (2:ℚ) ^ (((52 : ℕ) : ℤ) + -(52 + (pyShift k' n : ℤ))) := by
          apply zpow_le_zpow_right₀ (by norm_num)
          omega
      _ ≤ (pyMant1 k' n : ℚ) * (2:ℚ) ^ (-(52 + (pyShift k' n : ℤ))) :=
          zpow_le_natCast_mul _ 52 _ (pyMant1_lb k' n hk' hn)

set_option maxHeartbeats 1600000 in
lemma pyVal2_mono (k k' n : Nat) (hk : 0 < k) (hkk : k ≤ k') (hk'n : k' ≤ n) :
    (pyMant2 k n : ℚ) * (2:ℚ) ^ ((pyT k n : ℤ) - (52 + (pyShift k n : ℤ))) ≤
      (pyMant2 k' n : ℚ) * (2:ℚ) ^ ((pyT k' n : ℤ) - (52 + (pyShift k' n : ℤ))) := by
  have hk' : 0 < k' := lt_of_lt_of_le hk hkk
  have hn : 0 < n := lt_of_lt_of_le hk' hk'n
  have hkn : k ≤ n := le_trans hkk hk'n
  obtain ⟨hbt, ht6, ht7⟩ := pyT_spec k n hk hkn
  obtain ⟨hbt', ht6', ht7'⟩ := pyT_spec k' n hk' hk'n
  have hp0 : 0 < pyProd k n := by
    have h0 := pyMant1_lb k n hk hn
    have h1 : 0 < pyMant1 k n := lt_of_lt_of_le (by positivity) h0
    unfold pyProd
    positivity
  have hp0' : 0 < pyProd k' n := by
    have h0 := pyMant1_lb k' n hk' hn
    have h1 : 0 < pyMant1 k' n := lt_of_lt_of_le (by positivity) h0
    unfold pyProd
    positivity
  obtain ⟨hpl, hpu⟩ := bits_spec _ hp0
  obtain ⟨hpl', hpu'⟩ := bits_spec _ hp0'
  rw [hbt] at hpl hpu
  rw [hbt'] at hpl' hpu'
  have hpl2 : 2 ^ (pyT k n + 52) ≤ pyProd k n := by
    have he : pyT k n + 53 - 1 = pyT k n + 52 := by omega
    rw [he] at hpl
    exact hpl
  have hpl2' : 2 ^ (pyT k' n + 52) ≤ pyProd k' n := by
    have he : pyT k' n + 53 - 1 = pyT k' n + 52 := by omega
    rw [he] at hpl'
    exact hpl'
  have hv1 := pyVal1_mono k k' n hk hkk hk'n
  have hvp : (pyProd k n : ℚ) * (2:ℚ) ^ (-(52 + (pyShift k n : ℤ))) ≤
      (pyProd k' n : ℚ) * (2:ℚ) ^ (-(52 + (pyShift k' n : ℤ))) := by
    have h100 := mul_le_mul_of_nonneg_right hv1 (show (0:ℚ) ≤ 100 by norm_num)
    calc (pyProd k n : ℚ) * (2:ℚ) ^ (-(52 + (pyShift k n : ℤ)))
        = (pyMant1 k n : ℚ) * (2:ℚ) ^ (-(52 + (pyShift k n : ℤ))) * 100 := by
          unfold pyProd
          push_cast
          ring
      _ ≤ (pyMant1 k' n : ℚ) * (2:ℚ) ^ (-(52 + (pyShift k' n : ℤ))) * 100 := h100
      _ = (pyProd k' n : ℚ) * (2:ℚ) ^ (-(52 + (pyShift k' n : ℤ))) := by
          unfold pyProd
          push_cast
          ring
  have hlowq : (2:ℚ) ^ ((pyT k n : ℤ) - (pyShift k n : ℤ)) ≤
      (pyProd k n : ℚ) * (2:ℚ) ^ (-(52 + (pyShift k n : ℤ))) := by
    have h0 := zpow_le_natCast_mul (pyProd k n) (pyT k n + 52)
      (-(52 + (pyShift k n : ℤ))) hpl2
    have he : ((pyT k n + 52 : ℕ) : ℤ) + -(52 + (pyShift k n : ℤ)) =
        (pyT k n : ℤ) - (pyShift k n : ℤ) := by push_cast; ring
    rw [he] at h0
    exact h0
  have huppq' : (pyProd k' n : ℚ) * (2:ℚ) ^ (-(52 + (pyShift k' n : ℤ))) <
      (2:ℚ) ^ ((pyT k' n : ℤ) - (pyShift k' n : ℤ) + 1) := by
    have h0 := natCast_mul_zpow_lt (pyProd k' n) (pyT k' n + 53)
      (-(52 + (pyShift k' n : ℤ))) hpu'
    have he : ((pyT k' n + 53 : ℕ) : ℤ) + -(52 + (pyShift k' n : ℤ)) =
        (pyT k' n : ℤ) - (pyShift k' n : ℤ) + 1 := by push_cast; ring
    rw [he] at h0
    exact h0
  have hBB : (pyT k n : ℤ) - (pyShift k n : ℤ) ≤ (pyT k' n : ℤ) - (pyShift k' n : ℤ) := by
    have hlt : (2:ℚ) ^ ((pyT k n : ℤ) - (pyShift k n : ℤ)) <
        (2:ℚ) ^ ((pyT k' n : ℤ) - (pyShift k' n : ℤ) + 1) :=
      lt_of_le_of_lt (le_trans hlowq hvp) huppq'
    have := (zpow_lt_zpow_iff_right₀ (show (1:ℚ) < 2 by norm_num)).mp hlt
    omega
  rcases eq_or_lt_of_le hBB with hBe | hBlt
  · have hkey : pyProd k n * 2 ^ pyT k' n ≤ pyProd k' n * 2 ^ pyT k n := by
      have hmul := mul_le_mul_of_nonneg_right hvp
        (le_of_lt (two_zpow_pos (52 + (pyShift k n : ℤ) + (pyT k' n : ℤ))))
      simp only [mul_assoc, two_zpow_mul] at hmul
      have e1 : -(52 + (pyShift k n : ℤ)) + (52 + (pyShift k n : ℤ) + (pyT k' n : ℤ)) =
          ((pyT k' n : ℕ) : ℤ) := by ring
      have e2 : -(52 + (pyShift k' n : ℤ)) + (52 + (pyShift k n : ℤ) + (pyT k' n : ℤ)) =
          ((pyT k n : ℕ) : ℤ) := by omega
      rw [e1, e2, zpow_natCast, zpow_natCast] at hmul
      exact_mod_cast hmul
    have hm2 : pyMant2 k n ≤ pyMant2 k' n := by
      unfold pyMant2
      exact rneDiv_mono _ _ _ _ (by positivity) (by positivity) hkey
    have hexp : (pyT k n : ℤ) - (52 + (pyShift k n : ℤ)) =
        (pyT k' n : ℤ) - (52 + (pyShift k' n : ℤ)) := by omega
    rw [hexp]
    exact mul_le_mul_of_nonneg_right (by exact_mod_cast hm2)
      (le_of_lt (two_zpow_pos _))
  · calc (pyMant2 k n : ℚ) * (2:ℚ) ^ ((pyT k n : ℤ) - (52 + (pyShift k n : ℤ)))
        ≤ (2:ℚ) ^ (((53 : ℕ) : ℤ) + ((pyT k n : ℤ) - (52 + (pyShift k n : ℤ)))) :=
          natCast_mul_zpow_le _ 53 _ (pyMant2_ub k n hk hkn)
      _ ≤ (2:ℚ) ^ (((52 : ℕ) : ℤ) + ((pyT k' n : ℤ) - (52 + (pyShift k' n : ℤ)))) := by
          apply zpow_le_zpow_right₀ (by norm_num)
          omega
      _ ≤ (pyMant2 k' n : ℚ) * (2:ℚ) ^ ((pyT k' n : ℤ) - (52 + (pyShift k' n : ℤ))) :=
          zpow_le_natCast_mul _ 52 _ (pyMant2_lb k' n hk' hk'n)

lemma pyProgress_bracket (k n : Nat) (hk : 0 < k) (hkn : k ≤ n) :
    (pyProgress k n : ℚ) ≤
      (pyMant2 k n : ℚ) * (2:ℚ) ^ ((pyT k n : ℤ) - (52 + (pyShift k n : ℤ))) ∧
    (pyMant2 k n : ℚ) * (2:ℚ) ^ ((pyT k n : ℤ) - (52 + (pyShift k n : ℤ))) <
      (pyProgress k n : ℚ) + 1 := by
  obtain ⟨-, -, ht7⟩ := pyT_spec k n hk hkn
  set d := 52 + pyShift k n - pyT k n with hd
  have hdle : pyT k n ≤ 52 + pyShift k n := by omega
  have hexp : (pyT k n : ℤ) - (52 + (pyShift k n : ℤ)) = -(d : ℤ) := by omega
  rw [hexp, zpow_neg, zpow_natCast, ← div_eq_mul_inv]
  have hpow : (0:ℚ) < (2:ℚ) ^ d := by positivity
  constructor
  · rw [le_div_iff₀ hpow]
    have h1 : pyProgress k n * 2 ^ d ≤ pyMant2 k n := by
      unfold pyProgress
      rw [← hd]
      exact Nat.div_mul_le_self _ _
    exact_mod_cast h1
  · rw [div_lt_iff₀ hpow]
    have h2 : pyMant2 k n < (pyProgress k n + 1) * 2 ^ d := by
      unfold pyProgress
      rw [← hd]
      have e := Nat.div_add_mod (pyMant2 k n) (2 ^ d)
      have hm := Nat.mod_lt (pyMant2 k n) (show 0 < 2 ^ d by positivity)
      nlinarith [e, hm]
    calc (pyMant2 k n : ℚ) < (((pyProgress k n + 1) * 2 ^ d : ℕ) : ℚ) := by
          exact_mod_cast h2
      _ = ((pyProgress k n : ℚ) + 1) * (2:ℚ) ^ d := by push_cast; ring

lemma pyProgress_mono (k k' n : Nat) (hk : 0 < k) (hkk : k ≤ k') (hk'n : k' ≤ n) :
    pyProgress k n ≤ pyProgress k' n := by
  have hk' : 0 < k' := lt_of_lt_of_le hk hkk
  have hkn : k ≤ n := le_trans hkk hk'n
  obtain ⟨hb1, -⟩ := pyProgress_bracket k n hk hkn
  obtain ⟨-, hb2⟩ := pyProgress_bracket k' n hk' hk'n
  have hv := pyVal2_mono k k' n hk hkk hk'n
  have hq : (pyProgress k n : ℚ) < (pyProgress k' n : ℚ) + 1 :=
    lt_of_le_of_lt (le_trans hb1 hv) hb2
  have hnat : pyProgress k n < pyProgress k' n + 1 := by exact_mod_cast hq
  omega

lemma pyProgress_self (n : Nat) (hn : 0 < n) : pyProgress n n = 100 := by
  have hc : (n + n - 1) / n = 1 := by
    apply le_antisymm
    · have h1 := (Nat.div_lt_iff_lt_mul hn).mpr (show n + n - 1 < 2 * n by omega)
      omega
    · rw [Nat.le_div_iff_mul_le hn]
      omega
  have hs : pyShift n n = 0 := by
    unfold pyShift
    rw [hc]
    rfl
  have hm1 : pyMant1 n n = 2 ^ 52 := by
    unfold pyMant1
    rw [hs, rneDiv_exact _ _ hn ⟨2 ^ (52 + 0), rfl⟩, Nat.mul_div_cancel_left _ hn]
  unfold pyProgress pyMant2 pyT pyProd
  rw [hm1, hs]
  decide

/-- C5 (amended): for every non-empty list of n input files the
worker emits exactly n progress values; after the k-th file
(1 ≤ k ≤ n) the emitted value is `int(((k / n) * 100))` computed in
IEEE-754 binary64 arithmetic (`pyProgress k n`), which can fall one
below the exact floor((k/n)*100); the sequence of emitted values is
non-decreasing and its last value is 100. -/
theorem C5_progress (proc : String → Except String (List Row))
    (files : List String) (h : files ≠ []) :
    (ProcessingWorker.run proc files).progress.length = files.length ∧
    (∀ k : Nat, k < files.length →
      (ProcessingWorker.run proc files).progress[k]? =
        some (pyProgress (k + 1) files.length)) ∧
    (ProcessingWorker.run proc files).progress.Pairwise (· ≤ ·) ∧
    (ProcessingWorker.run proc files).progress.getLast? = some 100 := by
  have hpr : (ProcessingWorker.run proc files).progress =
      (List.range files.length).map fun j => pyProgress (j + 1) files.length := by
    show (runFrom proc files.length 0 files).progress = _
    rw [runFrom_progress_eq]
    exact List.map_congr_left fun j _ => by rw [Nat.zero_add]
  refine ⟨?_, ?_, ?_, ?_⟩
  · rw [hpr, List.length_map, List.length_range]
  · intro k hk
    rw [hpr, List.getElem?_map, List.getElem?_range hk, Option.map_some']
  · rw [hpr, List.pairwise_map]
    refine (List.pairwise_lt_range files.length).imp_of_mem ?_
    intro a b ha hb hab
    have hbn : b < files.length := List.mem_range.mp hb
    exact pyProgress_mono (a + 1) (b + 1) files.length (by omega) (by omega) (by omega)
  · obtain ⟨m, hm⟩ : ∃ m, files.length = m + 1 :=
      ⟨files.length - 1, by cases files with | nil => exact absurd rfl h | cons a t => simp⟩
    rw [hpr, List.getLast?_map, hm, List.range_succ, List.getLast?_concat, Option.map_some']
    rw [pyProgress_self (m + 1) (Nat.succ_pos m)]

/-- C5 fails as the claim states it: with 50 input files, the value
the program emits after the 29th file is int(((29/50)*100)) in
binary64 — the doubles give 57.99999999999999289..., truncated to 57 —
while floor((29/50)*100) is 58. -/
theorem C5_counterexample :
    (ProcessingWorker.run procEmpty (List.replicate 50 "f")).progress[28]? = some 57 ∧
    pyProgress 29 50 = 57 ∧ 29 * 100 / 50 = 58 := by
  refine ⟨?_, by decide, by decide⟩
  have hlen : (List.replicate 50 "f").length = 50 := by simp
  show (runFrom procEmpty (List.replicate 50 "f").length 0
    (List.replicate 50 "f")).progress[28]? = some 57
  rw [runFrom_progress_eq, hlen,
    List.getElem?_map, List.getElem?_range (show (28:ℕ) < 50 by norm_num),
    Option.map_some']
  decide

/-- C5 witness on the file list ["a"]. -/
theorem C5_witness :
    (ProcessingWorker.run procEmpty ["a"]).progress.length = (["a"] : List String).length ∧
    (∀ k : Nat, k < (["a"] : List String).length →
      (ProcessingWorker.run procEmpty ["a"]).progress[k]? =
        some (pyProgress (k + 1) (["a"] : List String).length)) ∧
    (ProcessingWorker.run procEmpty ["a"]).progress.Pairwise (· ≤ ·) ∧
    (ProcessingWorker.run procEmpty ["a"]).progress.getLast? = some 100 :=
  C5_progress procEmpty ["a"] (by simp)

/-- C10 witness at the text "Unit Count: 42 Measure: 12.5m". -/
theorem C10_witness :
    ("Unit_Count", "42".toList) ∈
      TicketApp.parse_fields "Unit Count: 42 Measure: 12.5m".toList ∧
    ("Measure", "12.5".toList) ∈
      TicketApp.parse_fields "Unit Count: 42 Measure: 12.5m".toList ∧
    (("42".toList = "N/A".toList ∨ ("42".toList ≠ [] ∧ ∀ c ∈ "42".toList, c.isDigit = true)) ∧
     ("12.5".toList = "N/A".toList ∨
       ("12.5".toList ≠ [] ∧ ∀ c ∈ "12.5".toList, (c.isDigit || c == '.') = true))) :=
  ⟨by decide, by decide,
   C10_numeric_fields "Unit Count: 42 Measure: 12.5m".toList "42".toList "12.5".toList
     (by decide) (by decide)⟩

/-! ## Claims C4, C9: file dispatch in `process_file` -/

/-- C4: `TicketLogic.process_file` takes the PDF branch exactly when
the lowercased path ends with ".pdf"; in that branch it maps OCR and
`parse_fields` over every rasterized page image, and otherwise it
opens the path as a single image and runs OCR and `parse_fields` once
— in both source files. -/
theorem C4_pdf_dispatch (env : OcrEnv) (p : String) :
    (isPdfPath p = true ↔
      ∃ stem : List Char, p.toList.map Char.toLower = stem ++ ".pdf".toList) ∧
    (∀ imgs : List Nat, isPdfPath p = true → env.convert_from_path p = Except.ok imgs →
      TicketSorter.process_file env p =
        Except.ok (imgs.map fun img => TicketSorter.parse_fields (env.image_to_string img)) ∧
      TicketApp.process_file env p =
        Except.ok (imgs.map fun img => TicketApp.parse_fields (env.image_to_string img))) ∧
    (∀ img : Nat, isPdfPath p = false → env.image_open p = Except.ok img →
      TicketSorter.process_file env p =
        Except.ok [TicketSorter.parse_fields (env.image_to_string img)] ∧
      TicketApp.process_file env p =
        Except.ok [TicketApp.parse_fields (env.image_to_string img)]) := by
  refine ⟨?_, ?_, ?_⟩
  · constructor
    · intro h
      rcases List.isSuffixOf_iff_suffix.mp h with ⟨stem, hstem⟩
      exact ⟨stem, hstem.symm⟩
    · intro ⟨stem, hstem⟩
      exact List.isSuffixOf_iff_suffix.mpr ⟨stem, hstem.symm⟩
  · intro imgs hpdf hconv
    constructor
    · simp [TicketSorter.process_file, hpdf, hconv, Except.map]
    · simp [TicketApp.process_file, hpdf, hconv, Except.map]
  · intro img hpdf himg
    constructor
    · simp [TicketSorter.process_file, hpdf, himg, Except.map]
    · simp [TicketApp.process_file, hpdf, himg, Except.map]

/-- C4 witness on the paths "t.PDF" and "t.png". -/
theorem C4_witness :
    (TicketSorter.process_file envW "t.PDF" =
       Except.ok ([5].map fun img => TicketSorter.parse_fields (envW.image_to_string img)) ∧
     TicketApp.process_file envW "t.PDF" =
       Except.ok ([5].map fun img => TicketApp.parse_fields (envW.image_to_string img))) ∧
    (TicketSorter.process_file envW "t.png" =
       Except.ok [TicketSorter.parse_fields (envW.image_to_string 7)] ∧
     TicketApp.process_file envW "t.png" =
       Except.ok [TicketApp.parse_fields (envW.image_to_string 7)]) :=
  ⟨(C4_pdf_dispatch envW "t.PDF").2.1 [5] (by decide) rfl,
   (C4_pdf_dispatch envW "t.png").2.2 7 (by decide) rfl⟩

/-- C9: for a path that does not end with ".pdf" case-insensitively,
whenever the image loads, `TicketLogic.process_file` returns a list of
exactly one row, regardless of the image's OCR content. -/
theorem C9_single_row (env : OcrEnv) (p : String) (img : Nat)
    (hpdf : isPdfPath p = false) (himg : env.image_open p = Except.ok img) :
    TicketSorter.process_file env p =
      Except.ok [TicketSorter.parse_fields (env.image_to_string img)] ∧
    TicketApp.process_file env p =
      Except.ok [TicketApp.parse_fields (env.image_to_string img)] ∧
    ∀ rows : List Row, TicketSorter.process_file env p = Except.ok rows →
      rows.length = 1 := by
  have hs : TicketSorter.process_file env p =
      Except.ok [TicketSorter.parse_fields (env.image_to_string img)] := by
    simp [TicketSorter.process_file, hpdf, himg, Except.map]
  refine ⟨hs, ?_, ?_⟩
  · simp [TicketApp.process_file, hpdf, himg, Except.map]
  · intro rows hrows
    rw [hs] at hrows
    injection hrows with hrows
    rw [← hrows]
    rfl

/-- C9 witness on the path "t.jpg". -/
theorem C9_witness :
    TicketSorter.process_file envW "t.jpg" =
      Except.ok [TicketSorter.parse_fields (envW.image_to_string 7)] ∧
    TicketApp.process_file envW "t.jpg" =
      Except.ok [TicketApp.parse_fields (envW.image_to_string 7)] ∧
    ∀ rows : List Row, TicketSorter.process_file envW "t.jpg" = Except.ok rows →
      rows.length = 1 :=
  C9_single_row envW "t.jpg" 7 (by decide) rfl

/-! ## Claim C7: the UI state machine -/

/-- C7: in every reachable UI state, a running worker implies a
disabled upload button; hence no click event (which Qt delivers only
while the button is enabled) can occur while a worker runs, so a
second worker is never started; and the only step that re-enables a
disabled button is the worker's finished signal running
`handle_finished`. -/
theorem C7_no_second_worker (s : UIState) (hs : UIReachable s) :
    (s.workerRunning = true → s.btnEnabled = false) ∧
    (∀ (files : List String) (s' : UIState),
      UIStep s (.click files) s' → s.workerRunning = false) ∧
    (∀ (e : UIEvent) (s' : UIState), UIStep s e s' →
      s.btnEnabled = false → s'.btnEnabled = true →
      ∃ results, e = UIEvent.finishedSig results) := by
  have hinv : ∀ u : UIState, UIReachable u →
      (u.workerRunning = true → u.btnEnabled = false) := by
    intro u hu
    induction hu with
    | start => intro hrun; exact absurd hrun (by simp [uiInit])
    | step t t' e _ hstep ih =>
      cases hstep with
      | clickStart files hen hne => intro _; rfl
      | clickNoFiles hen => exact ih
      | finish results hrun => intro hcontra; exact absurd hcontra (by simp)
  refine ⟨hinv s hs, ?_, ?_⟩
  · intro files s' hstep
    cases hstep with
    | clickStart files hen hne =>
      cases hr : s.workerRunning with
      | false => rfl
      | true => rw [hinv s hs hr] at hen; exact absurd hen (by simp)
    | clickNoFiles hen =>
      cases hr : s.workerRunning with
      | false => rfl
      | true => rw [hinv s hs hr] at hen; exact absurd hen (by simp)
  · intro e s' hstep hfalse htrue
    cases hstep with
    | clickStart files hen hne => rw [hen] at hfalse; exact absurd hfalse (by simp)
    | clickNoFiles hen => rw [hen] at hfalse; exact absurd hfalse (by simp)
    | finish results hrun => exact ⟨results, rfl⟩

/-- C7 witness at the initial state. -/
theorem C7_witness :
    (uiInit.workerRunning = true → uiInit.btnEnabled = false) ∧
    (∀ (files : List String) (s' : UIState),
      UIStep uiInit (.click files) s' → uiInit.workerRunning = false) ∧
    (∀ (e : UIEvent) (s' : UIState), UIStep uiInit e s' →
      uiInit.btnEnabled = false → s'.btnEnabled = true →
      ∃ results, e = UIEvent.finishedSig results) :=
  C7_no_second_worker uiInit UIReachable.start
